import Mathlib

/-!
Verification of the ebcfetch claim-ingestion pipeline.

This file gives a shallow embedding, in Lean 4, of the parts of the ebcfetch
sources that the specification talks about:

* the fetch-recovery ("backtracking") rule of `fetchNewClaims` (mainloop.go),
* the per-message classification and claim-insert step of `fetchNewClaims`,
* `parseSubject` and its time-token normalization (mainloop.go),
* `calcClaimDate` and `extractDateOfResentClaim` (the claim-time resolution),
* `validateEntrant` address authorization,
* `writeImage` and its transaction/rollback behaviour for photos.

Conventions of the embedding:

* Go strings are modelled as `List Char`; `strings.EqualFold` is modelled as
  ASCII-style lowercase folding.
* Go `int` values are modelled as `Int`; integer division and remainder in Go
  truncate toward zero, so they are modelled by `Int.tdiv` / `Int.tmod`
  (all quantities involved here are small, so 64-bit overflow is irrelevant;
  IMAP UIDs are `uint32` but stay far below `2^32` in every statement below,
  so they are modelled as `Nat`).
* Go `time.Time` values are modelled at one-minute resolution as an absolute
  calendar-day index plus a minute-of-day, all in the single rally timezone
  (`cfg.LocalTZ`); `t.Format("2006-01-02")` equality is equality of day
  indexes, and `t.Day()` (day of month) is computed from the day index with
  the standard proleptic-Gregorian civil-date algorithm.
* Database and filesystem effects are modelled by explicit state values
  (lists of rows / file paths), and fallible external operations
  (`os.WriteFile`, the HEIC converter, `BEGIN TRANSACTION`) by injected
  failure flags.
-/

namespace EBCFetch

/-! ### Small Go-standard-library helpers -/

/-- ASCII decimal digit test (the regex class `\d`). -/
def isDigitB (c : Char) : Bool := 48 ≤ c.toNat && c.toNat ≤ 57

/-- Value of a decimal digit character. -/
def digitVal (c : Char) : Int := (c.toNat : Int) - 48

/-- Accumulate a digit string into a number (no sign, no validation);
used only on strings already known to consist of digits. -/
def digitsVal (s : List Char) : Int := s.foldl (fun acc c => acc * 10 + digitVal c) 0

/-- Model of `strconv.Atoi` with the error result mapped to `0`, exactly as the Go
sources do (`hm, _ := strconv.Atoi(hmx)` ignores the error, leaving `0`). -/
def goAtoi (s : List Char) : Int :=
  if s ≠ [] ∧ s.all isDigitB then digitsVal s
  else if 2 ≤ s.length ∧ s.head? = some '-' ∧ (s.drop 1).all isDigitB then
    - digitsVal (s.drop 1)
  else if 2 ≤ s.length ∧ s.head? = some '+' ∧ (s.drop 1).all isDigitB then
    digitsVal (s.drop 1)
  else 0

/-! ### FetchRecoveryController: the backtracking recovery rule

From `fetchNewClaims` (mainloop.go lines 241-259): when the fetch stream
reports an error after `N` of the `Nmax` requested messages were delivered,

  release := Nmax - N
  for i := uint32(0); i <= uint32(release); i++ {
    if currentUid+i > lastGoodUid { skipped.AddNum(currentUid + i) }
  }
-/

/-- The UIDs added to the `skipped` (retry) set by the recovery loop of
`fetchNewClaims`: `currentUid + i` for `0 ≤ i ≤ Nmax - N`, filtered to those
strictly greater than `lastGoodUid`. -/
def recoveryCandidates (Nmax N currentUid lastGoodUid : ℕ) : List ℕ :=
  ((List.range (Nmax - N + 1)).map (fun i => currentUid + i)).filter
    (fun u => decide (lastGoodUid < u))

/-! ### Process-wide UID tracking state and one fetch cycle

`currentUid` and `lastGoodUid` are package-level variables in mainloop.go
(lines 15-16).  `runCycle` models how one call of `fetchNewClaims` evolves
them: `currentUid` is assigned at the top of the message loop (line 99),
`lastGoodUid` after a successful claim insert (line 233), and a stream error
runs the recovery loop above.  Nothing in the source resets either variable
at the start of a cycle, so `runCycle` takes the carried-over state as its
starting point. -/

/-- Per-message fate as far as the UID bookkeeping is concerned. -/
inductive MsgFate
  | recorded
  | dealtWith
  | insertFailed
deriving DecidableEq

/-- A message delivered by the fetch stream: its UID and what happened to it. -/
structure CycleMsg where
  uid : ℕ
  fate : MsgFate

/-- The package-level UID-tracking state of mainloop.go. -/
structure UidState where
  currentUid : ℕ
  lastGoodUid : ℕ
deriving DecidableEq

/-- One iteration of the message loop of `fetchNewClaims`, restricted to the
UID bookkeeping: `currentUid = msg.Uid` always; `lastGoodUid = msg.Uid` on a
successful insert; an insert failure adds the UID to `skipped`; a dealt-with
message adds it to `dealtwith`. -/
def stepMsg (acc : UidState × List ℕ × List ℕ) (m : CycleMsg) : UidState × List ℕ × List ℕ :=
  let st := { acc.1 with currentUid := m.uid }
  match m.fate with
  | MsgFate.recorded => ({ st with lastGoodUid := m.uid }, acc.2.1, acc.2.2)
  | MsgFate.dealtWith => (st, acc.2.1 ++ [m.uid], acc.2.2)
  | MsgFate.insertFailed => (st, acc.2.1, acc.2.2 ++ [m.uid])

/-- One fetch cycle of `fetchNewClaims`, restricted to UID bookkeeping:
starting from the carried-over `UidState`, process the delivered messages in
order, and if the stream reported an error afterwards, extend the skipped set
by the recovery rule.  Returns the final state, the dealt-with list and the
skipped list.  `Nmax` is the size of the requested batch. -/
def runCycle (st : UidState) (msgs : List CycleMsg) (Nmax : ℕ) (streamErr : Bool) :
    UidState × List ℕ × List ℕ :=
  let r := msgs.foldl stepMsg (st, [], [])
  if streamErr then
    (r.1, r.2.1, r.2.2 ++ recoveryCandidates Nmax msgs.length r.1.currentUid r.1.lastGoodUid)
  else r

/-! ### Per-message classification in live mode

From `fetchNewClaims` (mainloop.go lines 173-233).  The only gate before the
`INSERT INTO ebclaims` is `!vea && !cfg.TestMode` (sender not authorized for a
recognized entrant); `f4.ok` (the parse result) is used there only for logging
and for the diagnostic `TR.ClaimIsGood` flag, never to decide classification
or insertion. -/

/-- Outcome of one message in `fetchNewClaims`. -/
inductive Outcome
  | recorded
  | dealtWith
  | skippedRetry
  | testResponded
deriving DecidableEq

/-- The per-message classification of `fetchNewClaims`: given the mode, the
`vea` authorization bit, the subject-parse result `parseOk` (= `f4.ok`) and
whether the claim `INSERT` fails, return the message's outcome and whether a
claim row was inserted.  `parseOk` is deliberately never consulted — that is
what the source does. -/
def classifyMessage (testMode vea parseOk insertFails : Bool) : Outcome × Bool :=
  if !vea && !testMode then (Outcome.dealtWith, false)
  else if testMode then (Outcome.testResponded, false)
  else if insertFails then (Outcome.skippedRetry, false)
  else (Outcome.recorded, true)

/-! ### Theorems for claims C1, C9, C7 -/

/-- C1: if the fetch stream reports an error after `N` of the `Nmax` messages
of a batch were processed, then every UID greater than `lastGoodUid` that lies
within the un-processed remainder of the batch — i.e. between `currentUid`
and `currentUid + (Nmax - N)` — is added to the retry ("skipped") set. -/
theorem recovery_adds_unprocessed_remainder (Nmax N currentUid lastGoodUid u : ℕ)
    (hlo : currentUid ≤ u) (hhi : u ≤ currentUid + (Nmax - N)) (hgood : lastGoodUid < u) :
    u ∈ recoveryCandidates Nmax N currentUid lastGoodUid := by
  unfold recoveryCandidates
  rw [List.mem_filter]
  refine ⟨?_, by simpa using hgood⟩
  rw [List.mem_map]
  exact ⟨u - currentUid, by rw [List.mem_range]; omega, by omega⟩

/-- C1 witness: the spec's end-to-end scenario 4 — a batch of 10 UIDs
(1 through 10) where the stream fails right after UID 5 was successfully
recorded (`currentUid = lastGoodUid = 5`, `N = 5`): UIDs 6 through 10 are all
added to the retry set. -/
theorem recovery_adds_unprocessed_remainder_witness :
    6 ∈ recoveryCandidates 10 5 5 5 ∧ 7 ∈ recoveryCandidates 10 5 5 5 ∧
    8 ∈ recoveryCandidates 10 5 5 5 ∧ 9 ∈ recoveryCandidates 10 5 5 5 ∧
    10 ∈ recoveryCandidates 10 5 5 5 :=
  ⟨recovery_adds_unprocessed_remainder 10 5 5 5 6 (by decide) (by decide) (by decide),
   recovery_adds_unprocessed_remainder 10 5 5 5 7 (by decide) (by decide) (by decide),
   recovery_adds_unprocessed_remainder 10 5 5 5 8 (by decide) (by decide) (by decide),
   recovery_adds_unprocessed_remainder 10 5 5 5 9 (by decide) (by decide) (by decide),
   recovery_adds_unprocessed_remainder 10 5 5 5 10 (by decide) (by decide) (by decide)⟩

/-- C9 counterexample: `currentUid` and `lastGoodUid` are NOT reset at the
start of a fetch cycle.  Two cycles with identical inputs (no messages
delivered, stream error, batch size 2) compute different retry sets depending
on the state left over from the previous cycle, so leftover values do
influence the backtracking recovery rule of a later cycle, contradicting the
claim. -/
theorem uidState_leftover_influences_backtracking :
    (runCycle ⟨5, 3⟩ [] 2 true).2.2 ≠ (runCycle ⟨1, 3⟩ [] 2 true).2.2 := by
  decide

/-- C9 amended: `currentUid` and `lastGoodUid` are process-wide variables
that persist across fetch cycles; a cycle starts from the values left by the
previous cycle (a cycle that delivers no messages leaves them unchanged), and
a fetch-stream failure before any message is delivered applies the
backtracking recovery rule to the previous cycle's values. -/
theorem uidState_persists_across_cycles (st : UidState) (Nmax : ℕ) :
    (runCycle st [] Nmax false).1 = st ∧
    (runCycle st [] Nmax true).2.2 =
      recoveryCandidates Nmax 0 st.currentUid st.lastGoodUid := by
  constructor
  · rfl
  · simp [runCycle]

/-- C7 counterexample: in live mode (`testMode = false`), a message whose
subject did not yield a valid claim (`parseOk = false`) but whose sender is
authorized for a recognized entrant (`vea = true`) is NOT classified as
dealt-with: it is recorded, and a claim row IS inserted — contradicting the
claim that no claim row is ever inserted for an unparseable message. -/
theorem unparsed_authorized_message_is_recorded :
    classifyMessage false true false false = (Outcome.recorded, true) := by
  decide

/-- C7 amended: in live mode a message is classified dealt-with (permanently
left for manual handling) exactly when its sender is not authorized for a
recognized entrant (`vea = false`), and a claim row is inserted exactly when
the sender is authorized and the insert does not fail; the subject-parse
result has no influence at all on the classification or on whether a row is
inserted. -/
theorem live_classification_ignores_parse (vea parseOk insertFails : Bool) :
    ((classifyMessage false vea parseOk insertFails).1 = Outcome.dealtWith ↔ vea = false) ∧
    ((classifyMessage false vea parseOk insertFails).2 = true ↔
      (vea = true ∧ insertFails = false)) ∧
    classifyMessage false vea parseOk insertFails =
      classifyMessage false vea true insertFails := by
  cases vea <;> cases parseOk <;> cases insertFails <;> simp [classifyMessage]

/-! ### AttachmentProcessor: `writeImage` (mainloop.go lines 536-594)

The database (table `ebcphotos`) and the image directory are modelled as
explicit state; `BEGIN TRANSACTION`, `os.WriteFile` and the external HEIC
converter are fallible externals modelled by injected failure flags.
`ROLLBACK` restores the database state (including the generated rowid) but —
exactly as in the source — does nothing to files already written to disk. -/

/-- A committed row of the `ebcphotos` table. -/
structure PhotoRow where
  rowid : Int
  entrant : Int
  bonus : List Char
  emailid : Int
  image : List Char
deriving DecidableEq

/-- The persistent state touched by `writeImage`: committed photo rows, the
files present on disk, and the next rowid `last_insert_rowid()` will hand
out. -/
structure PhotoWorld where
  rows : List PhotoRow
  files : List (List Char)
  nextRowid : Int
deriving DecidableEq

/-- The configuration fields consulted by `writeImage`. -/
structure ImgCfg where
  testMode : Bool
  convertHeic : Bool
  path2SM : List Char
  imageFolder : List Char

/-- Injected failures for the three fallible external steps of `writeImage`. -/
structure ImgFaults where
  beginFails : Bool
  fileWriteFails : Bool
  heicFails : Bool

/-- The constant `standardimageextension = ".jpg"` of the source. -/
def standardimageextension : List Char := ".jpg".toList

/-- Whether `pat` occurs at the head of `s`. -/
def leadsWith : List Char → List Char → Bool
  | [], _ => true
  | _ :: _, [] => false
  | p :: ps, c :: cs => p == c && leadsWith ps cs

/-- Whether `pat` occurs as a contiguous run anywhere in `s`; this models
`regexp.MatchString` for a pattern that is a literal string (the source
matches the pattern `\.jpg`, i.e. the literal `.jpg`, anywhere in the
filename — it is not anchored to the end). -/
def containsSeq (pat : List Char) : List Char → Bool
  | [] => pat.isEmpty
  | c :: cs => leadsWith pat (c :: cs) || containsSeq pat cs

/-- Model of `filepath.Ext`: the suffix beginning at the final dot, `""` if there is
no dot. -/
def filepathExt (s : List Char) : List Char :=
  let afterDot := s.reverse.takeWhile (fun c => c ≠ '.')
  if afterDot.length = s.length then [] else '.' :: afterDot.reverse

/-- Model of `filepath.Join` on non-empty clean components. -/
def joinPath (xs : List (List Char)) : List Char :=
  match xs with
  | [] => []
  | x :: rest => rest.foldl (fun acc c => acc ++ '/' :: c) x

/-- Model of `strconv.Itoa` as a character list. -/
def intToChars (n : Int) : List Char := (toString n).toList

/-- Translation of `imageFilename` (mainloop.go):
`"img" + "-" + Itoa(entrant) + "-" + bonus + "-" + Itoa(imgid) + ext`. -/
def imageFilename (imgid entrant : Int) (bonus ext : List Char) : List Char :=
  "img".toList ++ "-".toList ++ intToChars entrant ++ "-".toList ++ bonus ++
    "-".toList ++ intToChars imgid ++ ext

/-- Translation of `writeImage` (mainloop.go lines 536-594).  Returns the generated photo id
(0 on failure) and the resulting world state.  Control flow mirrors the
source: test mode returns 0 at once; `BEGIN TRANSACTION` failure rolls back
and returns 0; the row insert obtains `photoid`; a file-write failure rolls
back (no file was created) and returns 0; if the filename (quotes stripped)
does not contain `.jpg` and HEIC conversion is enabled, the converter runs —
on its failure the database is rolled back and 0 returned, but the file
already written remains on disk; otherwise the row's path is updated and the
transaction commits. -/
def writeImage (cfg : ImgCfg) (fl : ImgFaults) (w : PhotoWorld)
    (entrant : Int) (bonus : List Char) (emailid : Int) (filename : List Char) :
    Int × PhotoWorld :=
  if cfg.testMode then (0, w)
  else
    let fname := filename.filter (fun c => c ≠ '"')
    let ext := filepathExt fname
    let isHeic := ! (containsSeq standardimageextension fname)
    if fl.beginFails then (0, w)
    else
      let photoid := w.nextRowid
      let x := joinPath [cfg.path2SM, cfg.imageFolder, imageFilename photoid entrant bonus ext]
      if fl.fileWriteFails then (0, w)
      else
        let files1 := w.files ++ [x]
        if cfg.convertHeic && isHeic then
          if fl.heicFails then (0, { w with files := files1 })
          else
            let xjpg := joinPath [cfg.path2SM, cfg.imageFolder,
              imageFilename photoid entrant bonus standardimageextension]
            let y := joinPath [cfg.imageFolder,
              imageFilename photoid entrant bonus standardimageextension]
            (photoid,
              { rows := w.rows ++ [⟨photoid, entrant, bonus, emailid, y⟩],
                files := files1 ++ [xjpg],
                nextRowid := photoid + 1 })
        else
          let y := joinPath [cfg.imageFolder, imageFilename photoid entrant bonus ext]
          (photoid,
            { rows := w.rows ++ [⟨photoid, entrant, bonus, emailid, y⟩],
              files := files1,
              nextRowid := photoid + 1 })

/-! ### Theorems for claims C2 and C10 -/

/-- C2 counterexample: photo row and image file are NOT created atomically.
With HEIC conversion enabled, a `.heic` attachment whose file write succeeds
but whose conversion fails makes `writeImage` return 0 with the database
rolled back (zero new photo rows) — yet the image file written before the
conversion remains on disk, so the failure leaves a file without any
corresponding row. -/
theorem writeImage_heic_failure_orphans_file :
    (writeImage ⟨false, true, "sm".toList, "images".toList⟩ ⟨false, false, true⟩
        ⟨[], [], 1⟩ 7 "B1".toList 42 "p.heic".toList).1 = 0 ∧
    (writeImage ⟨false, true, "sm".toList, "images".toList⟩ ⟨false, false, true⟩
        ⟨[], [], 1⟩ 7 "B1".toList 42 "p.heic".toList).2.rows = [] ∧
    (writeImage ⟨false, true, "sm".toList, "images".toList⟩ ⟨false, false, true⟩
        ⟨[], [], 1⟩ 7 "B1".toList 42 "p.heic".toList).2.files ≠ [] := by
  refine ⟨rfl, rfl, ?_⟩
  decide

/-- C2 amended: the photo DATABASE state is handled atomically, but the file
write is not.  Outside test mode and with `BEGIN TRANSACTION` succeeding:
if the file write fails, the transaction is rolled back, `writeImage` returns
0 and the world is completely unchanged (zero new photo rows and no file);
if the file write succeeds but HEIC conversion of a non-`.jpg` attachment
fails, the transaction is likewise rolled back and 0 returned — zero new
photo rows — but the original image file already written remains on disk. -/
theorem writeImage_rollback_behaviour (cfg : ImgCfg) (fl : ImgFaults) (w : PhotoWorld)
    (entrant : Int) (bonus : List Char) (emailid : Int) (filename : List Char)
    (hT : cfg.testMode = false) (hB : fl.beginFails = false) :
    (fl.fileWriteFails = true →
      writeImage cfg fl w entrant bonus emailid filename = (0, w)) ∧
    (fl.fileWriteFails = false → fl.heicFails = true → cfg.convertHeic = true →
      containsSeq standardimageextension (filename.filter (fun c => c ≠ '"')) = false →
      (writeImage cfg fl w entrant bonus emailid filename).1 = 0 ∧
      (writeImage cfg fl w entrant bonus emailid filename).2.rows = w.rows) := by
  constructor
  · intro hW
    simp [writeImage, hT, hB, hW]
  · intro hW hH hC hJ
    have hJ2 : containsSeq standardimageextension
        (List.filter (fun c => !decide (c = '"')) filename) = false := by
      simpa [ne_eq] using hJ
    simp [writeImage, hT, hB, hW, hH, hC, hJ2]

/-- C2 amended witness: both rollback behaviours at concrete inputs — a plain
`.jpg` write failure leaves the world untouched, and a failed HEIC conversion
of `p.heic` leaves the photo table untouched. -/
theorem writeImage_rollback_behaviour_witness :
    writeImage ⟨false, true, "sm".toList, "images".toList⟩ ⟨false, true, false⟩
        ⟨[], [], 1⟩ 7 "B1".toList 42 "p.jpg".toList = (0, ⟨[], [], 1⟩) ∧
    (writeImage ⟨false, true, "sm".toList, "images".toList⟩ ⟨false, false, true⟩
        ⟨[], [], 1⟩ 7 "B1".toList 42 "p.heic".toList).2.rows = [] := by
  constructor
  · exact (writeImage_rollback_behaviour _ _ _ _ _ _ _ rfl rfl).1 rfl
  · exact ((writeImage_rollback_behaviour _ _ _ _ _ _ _ rfl rfl).2 rfl rfl rfl
      (by decide)).2

/-- C10: when test mode is enabled, `writeImage` returns 0 immediately for
every input: no photo row is inserted and no file is written — the world
state is untouched. -/
theorem writeImage_testMode_no_effect (cfg : ImgCfg) (fl : ImgFaults) (w : PhotoWorld)
    (entrant : Int) (bonus : List Char) (emailid : Int) (filename : List Char)
    (hT : cfg.testMode = true) :
    writeImage cfg fl w entrant bonus emailid filename = (0, w) := by
  simp [writeImage, hT]

/-- C10 witness: a concrete test-mode invocation persisting nothing. -/
theorem writeImage_testMode_no_effect_witness :
    writeImage ⟨true, true, "sm".toList, "images".toList⟩ ⟨false, false, false⟩
        ⟨[], [], 1⟩ 7 "B1".toList 42 "p.jpg".toList = (0, ⟨[], [], 1⟩) :=
  writeImage_testMode_no_effect _ _ _ _ _ _ _ rfl

/-! ### SubjectParser: `parseSubject` (mainloop.go lines 312-370)

`parseSubject` applies a configured regular expression to the subject string
and then post-processes the capture groups.  The configured patterns live in
`ebcfetch.yml`, which is not among the sources; the submatch list returned by
`FindStringSubmatch` is therefore taken as the input here: `[]` models a
failed match (`nil`), otherwise the list holds the full match at index 0
followed by the capture groups (entrant, bonus, odometer, time, extra). -/

/-- The `fourFields` struct of the sources.  `claimTimeHM` models
`f4.ClaimTime`: `some (hour, minute)` when the ISO-8601 parse of the time
token succeeded, `none` for the zero `time.Time` value. -/
structure FourFields where
  ok : Bool
  EntrantID : Int
  BonusID : List Char
  OdoReading : Int
  OdoOk : Bool
  claimTimeHM : Option (Int × Int)
  HHmm : List Char
  TimeOk : Bool
  TimeHH : Int
  TimeMM : Int
  Extra : List Char
deriving DecidableEq

/-- The zero value of `fourFields`. -/
def fourFieldsDefault : FourFields :=
  ⟨false, 0, [], 0, false, none, [], false, 0, 0, []⟩

/-- Translation of `extractEntrantID` (regex `[^\d]*(\d+)`): skip leading non-digits and
read the first digit run; `0` when the string holds no digit. -/
def extractEntrantID (x : List Char) : Int :=
  match x.dropWhile (fun c => !isDigitB c) with
  | [] => 0
  | rest => digitsVal (rest.takeWhile isDigitB)

/-- Model of `strings.ToUpper`. -/
def toUpperL (s : List Char) : List Char := s.map Char.toUpper

/-- The odometer validity regex `^\d+$`. -/
def odoREMatch (s : List Char) : Bool := !s.isEmpty && s.all isDigitB

/-- The stripping step `strings.ReplaceAll(strings.ReplaceAll(ff[4], ":", ""), ".", "")`. -/
def stripTimeSeps (s : List Char) : List Char :=
  s.filter (fun c => !(c == ':') && !(c == '.'))

/-- The padding step `if len(hmx) < 4 { hmx = "0" + hmx }` — note: a SINGLE zero is prefixed. -/
def padTimeDigits (s : List Char) : List Char :=
  if s.length < 4 then '0' :: s else s

/-- The time validity regex `^\d\d\d\d$`. -/
def timeREMatch (s : List Char) : Bool := s.length == 4 && s.all isDigitB

/-- Result of normalizing a non-ISO time token. -/
structure NormTime where
  hhmm : List Char
  timeHH : Int
  timeMM : Int
  timeOk : Bool
deriving DecidableEq

/-- The non-ISO branch of `parseSubject`'s time handling (mainloop.go lines
344-353): strip `:` and `.`, prefix one `0` if fewer than four characters
remain, convert with `Atoi` (errors ignored), split as `hm / 100` and
`hm % 100` (Go's truncated division), and validate with the `^\d\d\d\d$`
regex plus `TimeHH < 24 && TimeMM < 60`. -/
def normalizeTimeToken (tok : List Char) : NormTime :=
  let hmx := padTimeDigits (stripTimeSeps tok)
  let hm := goAtoi hmx
  { hhmm := hmx
    timeHH := hm.tdiv 100
    timeMM := hm.tmod 100
    timeOk := timeREMatch hmx && decide (hm.tdiv 100 < 24) && decide (hm.tmod 100 < 60) }

/-- Modelled from the spec: the claim's description of the normalization —
strip `:` and `.`, LEFT-ZERO-PAD the remaining digits TO 4 DIGITS, split into
hour = first two digits and minute = last two digits, valid exactly when
`0 ≤ hour < 24` and `0 ≤ minute < 60`. -/
def specNormalizeTimeToken (tok : List Char) : NormTime :=
  let digits := stripTimeSeps tok
  let padded := List.replicate (4 - digits.length) '0' ++ digits
  let hh := goAtoi (padded.take 2)
  let mm := goAtoi (padded.drop (padded.length - 2))
  { hhmm := padded
    timeHH := hh
    timeMM := mm
    timeOk := decide (0 ≤ hh) && decide (hh < 24) && decide (0 ≤ mm) && decide (mm < 60) }

/-! #### A shape-checking model of `time.ParseInLocation(time.RFC3339, ...)`

Only the hour and minute of a successful parse are consumed by
`parseSubject`, so the model returns those; the parse itself checks the full
`YYYY-MM-DDThh:mm:ss[.frac](Z|±hh:mm)` shape with calendar-valid fields. -/

/-- Read exactly two digits. -/
def parse2 : List Char → Option (Int × List Char)
  | a :: b :: rest =>
    if isDigitB a && isDigitB b then some (10 * digitVal a + digitVal b, rest) else none
  | _ => none

/-- Read exactly four digits. -/
def parse4 : List Char → Option (Int × List Char)
  | a :: b :: c :: d :: rest =>
    if isDigitB a && isDigitB b && isDigitB c && isDigitB d then
      some (digitsVal [a, b, c, d], rest)
    else none
  | _ => none

/-- Expect a literal character. -/
def expectCh (c : Char) : List Char → Option (List Char)
  | x :: rest => if x == c then some rest else none
  | [] => none

/-- Gregorian leap year. -/
def isLeap (y : Int) : Bool := (y % 4 == 0 && !(y % 100 == 0)) || y % 400 == 0

/-- Days in a month. -/
def daysInMonth (y m : Int) : Int :=
  if m == 2 then (if isLeap y then 29 else 28)
  else if m == 4 || m == 6 || m == 9 || m == 11 then 30
  else 31

/-- Skip an optional fractional-second part (`.` followed by digits). -/
def skipFraction (s : List Char) : List Char :=
  match s with
  | '.' :: rest => if (rest.takeWhile isDigitB).isEmpty then s else rest.dropWhile isDigitB
  | _ => s

/-- Check the timezone offset tail: `Z` or `±hh:mm`. -/
def offsetOk (s : List Char) : Bool :=
  match s with
  | ['Z'] => true
  | sign :: rest =>
    (sign == '+' || sign == '-') &&
      (match parse2 rest with
       | some (oh, r2) =>
         (match r2 with
          | ':' :: r3 =>
            (match parse2 r3 with
             | some (om, r4) => r4.isEmpty && decide (oh < 24) && decide (om < 60)
             | none => false)
          | _ => false)
       | none => false)
  | _ => false

/-- Model of `time.ParseInLocation(time.RFC3339, s, loc)` reduced to its success/
failure and, on success, the hour and minute of the parsed timestamp. -/
def isoParseHM (s : List Char) : Option (Int × Int) := do
  let (y, s) ← parse4 s
  let s ← expectCh '-' s
  let (mo, s) ← parse2 s
  let s ← expectCh '-' s
  let (d, s) ← parse2 s
  let s ← expectCh 'T' s
  let (hh, s) ← parse2 s
  let s ← expectCh ':' s
  let (mi, s) ← parse2 s
  let s ← expectCh ':' s
  let (ss, s) ← parse2 s
  let s := skipFraction s
  if offsetOk s && decide (1 ≤ mo) && decide (mo ≤ 12) && decide (1 ≤ d) &&
      decide (d ≤ daysInMonth y mo) && decide (hh < 24) && decide (mi < 60) &&
      decide (ss < 60) then
    some (hh, mi)
  else none

/-- Translation of `parseSubject` (mainloop.go lines 312-370), taking the submatch list
`ff` produced by the configured pattern.  Mirrors the source exactly:
`ok = len(ff) > 0`, demoted for a formal parse with fewer than 5 entries;
early return below 5 entries; entrant reduced to its digit run; bonus
upper-cased; odometer `Atoi`-converted and validity-checked with `^\d+$`;
the time token first tried as RFC3339 and otherwise normalized; finally
`if !f4.TimeOk { f4.ok = false }`. -/
def parseSubject (formal : Bool) (ff : List (List Char)) : FourFields :=
  if ff.length = 0 ∨ (formal = true ∧ ff.length < 5) then fourFieldsDefault
  else if ff.length < 5 then
    { fourFieldsDefault with
      ok := true
      EntrantID := extractEntrantID (ff.getD 1 [])
      BonusID := toUpperL (ff.getD 2 []) }
  else
    let entrant := extractEntrantID (ff.getD 1 [])
    let bonus := toUpperL (ff.getD 2 [])
    let odoTok := ff.getD 3 []
    let timeTok := ff.getD 4 []
    let extra := ff.getD 5 []
    match isoParseHM timeTok with
    | some (h, m) =>
      let tOk := decide (h < 24) && decide (m < 60)
      { ok := tOk, EntrantID := entrant, BonusID := bonus, OdoReading := goAtoi odoTok,
        OdoOk := odoREMatch odoTok, claimTimeHM := some (h, m), HHmm := timeTok,
        TimeOk := tOk, TimeHH := h, TimeMM := m, Extra := extra }
    | none =>
      let r := normalizeTimeToken timeTok
      { ok := r.timeOk, EntrantID := entrant, BonusID := bonus, OdoReading := goAtoi odoTok,
        OdoOk := odoREMatch odoTok, claimTimeHM := none, HHmm := r.hhmm,
        TimeOk := r.timeOk, TimeHH := r.timeHH, TimeMM := r.timeMM, Extra := extra }

/-! ### Theorems for claims C4 and C8 -/

/-- C4: for every submatch list and every parse mode, if the time field is
invalid (`TimeOk = false`) then `parseSubject` returns `ok = false`,
regardless of how well-formed the entrant, bonus and odometer fields are.
The hypothesis states that the configured pattern either failed to match
(`ff = []`) or captured all four claim fields (`5 ≤ ff.length`), which is
the shape §4.1 of the spec prescribes for the configured patterns (a match
with fewer than five entries can only arise from a pattern with fewer than
four capture groups, and then no time field exists at all). -/
theorem parseSubject_invalid_time_forces_not_ok (formal : Bool) (ff : List (List Char))
    (hlen : ff = [] ∨ 5 ≤ ff.length) :
    (parseSubject formal ff).TimeOk = false → (parseSubject formal ff).ok = false := by
  intro hTO
  rcases hlen with h | h
  · subst h
    rfl
  · unfold parseSubject at hTO ⊢
    have h0 : ¬(ff.length = 0 ∨ (formal = true ∧ ff.length < 5)) := by
      push_neg
      exact ⟨by omega, fun _ => by omega⟩
    rw [if_neg h0] at hTO ⊢
    have h1 : ¬(ff.length < 5) := by omega
    rw [if_neg h1] at hTO ⊢
    cases hiso : isoParseHM (ff.getD 4 []) with
    | none => simp only [hiso] at hTO ⊢; exact hTO
    | some hm =>
      cases hm with
      | mk h m => simp only [hiso] at hTO ⊢; exact hTO

/-- C4 witness: the spec's end-to-end scenario 3, subject
`"1A BB1 123456 20099"` — entrant, bonus and odometer are all well-formed,
but minute 99 makes the time invalid, so `ok = false`. -/
theorem parseSubject_invalid_time_forces_not_ok_witness :
    (5 ≤ (["1A BB1 123456 20099".toList, "1A".toList, "BB1".toList,
            "123456".toList, "20099".toList] : List (List Char)).length ∧
      (parseSubject false ["1A BB1 123456 20099".toList, "1A".toList, "BB1".toList,
        "123456".toList, "20099".toList]).TimeOk = false ∧
      (parseSubject false ["1A BB1 123456 20099".toList, "1A".toList, "BB1".toList,
        "123456".toList, "20099".toList]).EntrantID = 1 ∧
      (parseSubject false ["1A BB1 123456 20099".toList, "1A".toList, "BB1".toList,
        "123456".toList, "20099".toList]).OdoOk = true) ∧
    (parseSubject false ["1A BB1 123456 20099".toList, "1A".toList, "BB1".toList,
      "123456".toList, "20099".toList]).ok = false :=
  ⟨⟨by decide, by decide, by decide, by decide⟩,
    parseSubject_invalid_time_forces_not_ok false _ (Or.inr (by decide)) (by decide)⟩

/-- C8 counterexample: the code does not left-zero-pad the stripped time
token to 4 digits — it prefixes at most ONE zero.  For the token `"45"` the
code produces the 3-character string `"045"`, which fails the `^\d\d\d\d$`
check, so the time is INVALID; the spec's described normalization pads to
`"0045"`, hour 0 and minute 45, which would be VALID. -/
theorem time_normalization_differs_from_spec :
    (normalizeTimeToken "45".toList).timeOk = false ∧
    (normalizeTimeToken "45".toList).hhmm = "045".toList ∧
    (specNormalizeTimeToken "45".toList).timeOk = true ∧
    (specNormalizeTimeToken "45".toList).hhmm = "0045".toList := by
  decide

/-- Evaluation of `goAtoi` on a non-empty all-digit string is plain digit accumulation. -/
theorem goAtoi_digits (s : List Char) (hne : s ≠ []) (h : s.all isDigitB = true) :
    goAtoi s = digitsVal s := by
  unfold goAtoi
  rw [if_pos ⟨hne, h⟩]

/-- Bounds for the value of a digit character. -/
theorem digitVal_bounds (c : Char) (h : isDigitB c = true) :
    0 ≤ digitVal c ∧ digitVal c ≤ 9 := by
  unfold isDigitB at h
  rw [Bool.and_eq_true, decide_eq_true_eq, decide_eq_true_eq] at h
  unfold digitVal
  omega


/-- A list of length four is a four-element literal. -/
theorem length_four_shape {α : Type} (s : List α) (h : s.length = 4) :
    ∃ a b c d, s = [a, b, c, d] := by
  rcases s with - | ⟨a, - | ⟨b, - | ⟨c, - | ⟨d, - | ⟨e, t⟩⟩⟩⟩⟩
  · simp at h
  · simp at h
  · simp at h
  · simp at h
  · exact ⟨a, b, c, d, rfl⟩
  · simp at h

/-- On a four-digit string, Go's numeric split `hm / 100` and `hm % 100`
recovers the numeric values of the first two and last two digits. -/
theorem fourDigit_tdiv_tmod (a b c d : Char)
    (hall : ([a, b, c, d] : List Char).all isDigitB = true) :
    (goAtoi [a, b, c, d]).tdiv 100 = goAtoi [a, b] ∧
    (goAtoi [a, b, c, d]).tmod 100 = goAtoi [c, d] := by
  have hl := hall
  simp only [List.all_cons, List.all_nil, Bool.and_eq_true, Bool.and_true] at hl
  obtain ⟨ha, hb, hc, hd⟩ := hl
  have Ha := digitVal_bounds a ha
  have Hb := digitVal_bounds b hb
  have Hc := digitVal_bounds c hc
  have Hd := digitVal_bounds d hd
  have hval : goAtoi [a, b, c, d] =
      digitVal a * 1000 + digitVal b * 100 + digitVal c * 10 + digitVal d := by
    rw [goAtoi_digits _ (by simp) hall]
    simp [digitsVal]
    try ring
  have hab : goAtoi [a, b] = digitVal a * 10 + digitVal b := by
    rw [goAtoi_digits _ (by simp) (by simp [ha, hb])]
    simp [digitsVal]
    try ring
  have hcd : goAtoi [c, d] = digitVal c * 10 + digitVal d := by
    rw [goAtoi_digits _ (by simp) (by simp [hc, hd])]
    simp [digitsVal]
    try ring
  rw [hval, hab, hcd, Int.tdiv_eq_ediv (by omega) (by omega),
    Int.tmod_eq_emod (by omega) (by omega)]
  omega

/-- C8 amended: the code's normalization strips `:` and `.`, prefixes a
single `0` when fewer than four characters remain, and splits numerically as
`hm / 100` and `hm % 100`; the time is valid exactly when the normalized
string consists of EXACTLY four digits with hour < 24 and minute < 60 — and
in that (and only that) case the hour and minute are indeed the numeric
values of the first two and the last two digits. -/
theorem normalizeTimeToken_valid_iff (tok : List Char) :
    (normalizeTimeToken tok).timeOk = true ↔
      ((padTimeDigits (stripTimeSeps tok)).length = 4 ∧
       (padTimeDigits (stripTimeSeps tok)).all isDigitB = true ∧
       (normalizeTimeToken tok).timeHH =
         goAtoi ((padTimeDigits (stripTimeSeps tok)).take 2) ∧
       (normalizeTimeToken tok).timeMM =
         goAtoi ((padTimeDigits (stripTimeSeps tok)).drop 2) ∧
       (normalizeTimeToken tok).timeHH < 24 ∧
       (normalizeTimeToken tok).timeMM < 60) := by
  simp only [normalizeTimeToken, timeREMatch]
  generalize hg : padTimeDigits (stripTimeSeps tok) = hmx
  constructor
  · intro h
    rw [Bool.and_eq_true, Bool.and_eq_true, Bool.and_eq_true, beq_iff_eq,
      decide_eq_true_eq, decide_eq_true_eq] at h
    obtain ⟨⟨⟨hlen4, hall⟩, hlt1⟩, hlt2⟩ := h
    obtain ⟨a, b, c, d, rfl⟩ := length_four_shape _ hlen4
    obtain ⟨htd, htm⟩ := fourDigit_tdiv_tmod a b c d hall
    refine ⟨hlen4, hall, ?_, ?_, hlt1, hlt2⟩
    · simpa using htd
    · simpa using htm
  · rintro ⟨hlen4, hall, -, -, hlt1, hlt2⟩
    rw [Bool.and_eq_true, Bool.and_eq_true, Bool.and_eq_true, beq_iff_eq,
      decide_eq_true_eq, decide_eq_true_eq]
    exact ⟨⟨⟨hlen4, hall⟩, hlt1⟩, hlt2⟩

/-! ### ClaimTimeResolver: `calcClaimDate` and `extractDateOfResentClaim`

`time.Time` is modelled at one-minute resolution in the single rally
timezone: an absolute day index (`day`) plus a minute-of-day (`mins`).
`t.Format("2006-01-02")` equality is equality of day indexes;
`t.Date()` followed by `time.Date(year, mth, day, hh, mm, 0, 0, LocalTZ)`
is "keep the day index, set the time of day" (with Go's normalization of
out-of-range clock values); `t.Day()` (day of month) is computed from the
day index with the standard proleptic-Gregorian civil-date algorithm;
`cd.Sub(rfc822date).Hours() > 1` is `subMinutes cd msgDate > 60`;
`AddDate(0, 0, -1)` is `day - 1` with the clock unchanged. -/

/-- A `time.Time` in the rally timezone, at one-minute resolution. -/
structure GoTime where
  day : Int
  mins : Int
deriving DecidableEq

/-- Day of month of an absolute day index (0 = 1970-01-01), by the standard
civil-from-days algorithm. -/
def civilDayOfMonth (zday : Int) : Int :=
  let z := zday + 719468
  let doe := z % 146097
  let yoe := (doe - doe / 1460 + doe / 36524 - doe / 146096) / 365
  let doy := doe - (365 * yoe + yoe / 4 - yoe / 100)
  let mp := (5 * doy + 2) / 153
  doy - (153 * mp + 2) / 5 + 1

/-- Model of `time.Date(year, mth, day, hh, mm, 0, 0, LocalTZ)` where `(year, mth,
day)` is the civil date of day index `day`: keep the day, set the clock,
normalizing an out-of-range clock into the day index. -/
def mkTimeOnDay (day hh mm : Int) : GoTime :=
  ⟨day + (60 * hh + mm) / 1440, (60 * hh + mm) % 1440⟩

/-- Model of `a.Sub(b)` in minutes. -/
def subMinutes (a b : GoTime) : Int := 1440 * (a.day - b.day) + (a.mins - b.mins)

/-- Model of `t.Day()` — the day of month. -/
def goDay (t : GoTime) : Int := civilDayOfMonth t.day

/-- Model of `a.Format("2006-01-02") == b.Format("2006-01-02")`. -/
def sameCalendarDate (a b : GoTime) : Bool := a.day == b.day

/-- Translation of `calcClaimDate` (unnamed/part_001 lines 10-46): if the rally starts and
finishes on the same calendar day, that day is used; otherwise the message's
sent date.  The candidate is shifted back one day when it lies more than one
hour after the sent time AND its day of month differs from the rally start's
day of month. -/
def calcClaimDate (rallyStart rallyFinish : GoTime) (hh mm : Int) (msgDate : GoTime) :
    GoTime :=
  let d := if sameCalendarDate rallyStart rallyFinish then rallyStart.day else msgDate.day
  let cd := mkTimeOnDay d hh mm
  if decide (60 < subMinutes cd msgDate) && !(goDay cd == goDay rallyStart) then
    ⟨cd.day - 1, cd.mins⟩
  else cd

/-- A row of the `ebclaims` table, restricted to the columns consulted by
`extractDateOfResentClaim`: the five identity fields of its `WHERE` clause
and the two `ORDER BY` columns.  `claimTime` models the stored `ClaimTime`
text (written by `storeTimeDB`, an RFC3339 rendering that round-trips with
`time.ParseInLocation` at this resolution, and whose lexicographic text
order is the chronological order modelled by `rowBefore`). -/
structure ClaimRow where
  entrant : Int
  bonus : List Char
  odo : Int
  hh : Int
  mm : Int
  claimTime : GoTime
  dateTime : GoTime
deriving DecidableEq

/-- The `WHERE EntrantID=... AND BonusID=... AND OdoReading=... AND
ClaimHH=... AND ClaimMM=...` predicate. -/
def rowMatches (e : Int) (b : List Char) (o hh mm : Int) (r : ClaimRow) : Bool :=
  r.entrant == e && r.bonus == b && r.odo == o && r.hh == hh && r.mm == mm

/-- The rows selected by `extractDateOfResentClaim`'s query. -/
def matchingRows (store : List ClaimRow) (e : Int) (b : List Char) (o hh mm : Int) :
    List ClaimRow :=
  store.filter (rowMatches e b o hh mm)

/-- The `ORDER BY ClaimTime, DateTime` order. -/
def rowBefore (a b : ClaimRow) : Bool :=
  decide (a.claimTime.day < b.claimTime.day) ||
  (a.claimTime.day == b.claimTime.day &&
    (decide (a.claimTime.mins < b.claimTime.mins) ||
     (a.claimTime.mins == b.claimTime.mins &&
       (decide (a.dateTime.day < b.dateTime.day) ||
        (a.dateTime.day == b.dateTime.day &&
          decide (a.dateTime.mins < b.dateTime.mins))))))

/-- The first row of the ordered result set (`rows.Next()` once). -/
def firstOrdered (rs : List ClaimRow) : Option ClaimRow :=
  rs.foldl (fun acc r =>
    match acc with
    | none => some r
    | some m => if rowBefore r m then some r else some m) none

/-- Translation of `extractDateOfResentClaim` (unnamed/part_001 lines 80-102): look for an
earlier claim with identical entrant/bonus/odometer/hour/minute and return
the first one's stored `ClaimTime`; `none` models `ok = false`. -/
def extractDateOfResentClaim (store : List ClaimRow) (e : Int) (b : List Char)
    (o hh mm : Int) : Option GoTime :=
  (firstOrdered (matchingRows store e b o hh mm)).map (fun r => r.claimTime)

/-- The claim-time resolution step of `fetchNewClaims` (mainloop.go lines
146-151), for a claim whose subject carried no full ISO timestamp:
`TR.ClaimDateTime, ok = extractDateOfResentClaim(...)`; on `!ok`,
`TR.ClaimDateTime = calcClaimDate(f4.TimeHH, f4.TimeMM, m.Date)`. -/
def resolveClaimTime (store : List ClaimRow) (e : Int) (b : List Char) (o hh mm : Int)
    (rallyStart rallyFinish msgDate : GoTime) : GoTime :=
  match extractDateOfResentClaim store e b o hh mm with
  | some t => t
  | none => calcClaimDate rallyStart rallyFinish hh mm msgDate

/-! ### Theorems for claims C5 and C3 -/

/-- C5: for a rally whose start and finish fall on the same calendar day,
`calcClaimDate` returns a timestamp on that single rally day — with exactly
the claimed clock time — for every message sent date and every valid
hour/minute. -/
theorem calcClaimDate_single_day (rs rf msg : GoTime) (hh mm : Int)
    (hsame : rs.day = rf.day) (hh0 : 0 ≤ hh) (hh24 : hh < 24)
    (hm0 : 0 ≤ mm) (hm60 : mm < 60) :
    (calcClaimDate rs rf hh mm msg).day = rs.day ∧
    (calcClaimDate rs rf hh mm msg).mins = 60 * hh + mm := by
  have hdiv : (60 * hh + mm) / 1440 = 0 := by omega
  have hmod : (60 * hh + mm) % 1440 = 60 * hh + mm := by omega
  simp only [calcClaimDate, sameCalendarDate, mkTimeOnDay, goDay, hsame,
    beq_self_eq_true, if_true, hdiv, hmod, add_zero, Bool.not_true,
    Bool.and_false, Bool.false_eq_true, if_false]
  simp

/-- C5 witness: a one-day rally (day index 100); a claim of 14:30 sent from
a message dated a hundred days later still resolves to rally day 100. -/
theorem calcClaimDate_single_day_witness :
    (calcClaimDate ⟨100, 480⟩ ⟨100, 1200⟩ 14 30 ⟨200, 30⟩).day = 100 ∧
    (calcClaimDate ⟨100, 480⟩ ⟨100, 1200⟩ 14 30 ⟨200, 30⟩).mins = 60 * 14 + 30 :=
  calcClaimDate_single_day ⟨100, 480⟩ ⟨100, 1200⟩ ⟨200, 30⟩ 14 30 rfl
    (by decide) (by decide) (by decide) (by decide)

/-- C3: resending a claim reuses the stored timestamp verbatim.  If the
store holds no claim with the given entrant/bonus/odometer/hour/minute and
the claim first resolves to `t1`, then once that result is stored, any later
resolution of the same claim returns exactly `t1` via the stored-claim
lookup (not by recomputation — the message date of the resend is
irrelevant), and resolving twice yields the same timestamp both times. -/
theorem resolveClaimTime_resend_idempotent (store : List ClaimRow) (e : Int)
    (b : List Char) (o hh mm : Int) (rs rf msg msg2 msg3 dt : GoTime)
    (hnone : matchingRows store e b o hh mm = []) :
    extractDateOfResentClaim
        (store ++ [⟨e, b, o, hh, mm, resolveClaimTime store e b o hh mm rs rf msg, dt⟩])
        e b o hh mm = some (resolveClaimTime store e b o hh mm rs rf msg) ∧
    resolveClaimTime
        (store ++ [⟨e, b, o, hh, mm, resolveClaimTime store e b o hh mm rs rf msg, dt⟩])
        e b o hh mm rs rf msg2 = resolveClaimTime store e b o hh mm rs rf msg ∧
    resolveClaimTime
        (store ++ [⟨e, b, o, hh, mm, resolveClaimTime store e b o hh mm rs rf msg, dt⟩])
        e b o hh mm rs rf msg3 = resolveClaimTime store e b o hh mm rs rf msg := by
  set t1 := resolveClaimTime store e b o hh mm rs rf msg with ht
  have hmatch : matchingRows (store ++ [⟨e, b, o, hh, mm, t1, dt⟩]) e b o hh mm =
      [⟨e, b, o, hh, mm, t1, dt⟩] := by
    unfold matchingRows at hnone ⊢
    rw [List.filter_append, hnone]
    simp [rowMatches]
  have hext : extractDateOfResentClaim (store ++ [⟨e, b, o, hh, mm, t1, dt⟩])
      e b o hh mm = some t1 := by
    unfold extractDateOfResentClaim
    rw [hmatch]
    rfl
  refine ⟨hext, ?_, ?_⟩ <;>
    · unfold resolveClaimTime
      rw [hext]

/-- C3 witness: an empty store, claim (entrant 1, bonus B1, odometer 3,
12:34) over a two-day rally; after the first resolution is stored, two later
resolutions with different message dates both return the first timestamp. -/
theorem resolveClaimTime_resend_idempotent_witness :
    matchingRows [] 1 "B1".toList 3 12 34 = [] ∧
    resolveClaimTime
        [⟨1, "B1".toList, 3, 12, 34,
          resolveClaimTime [] 1 "B1".toList 3 12 34 ⟨100, 480⟩ ⟨101, 900⟩ ⟨100, 700⟩,
          ⟨100, 700⟩⟩]
        1 "B1".toList 3 12 34 ⟨100, 480⟩ ⟨101, 900⟩ ⟨105, 0⟩ =
      resolveClaimTime [] 1 "B1".toList 3 12 34 ⟨100, 480⟩ ⟨101, 900⟩ ⟨100, 700⟩ ∧
    resolveClaimTime
        [⟨1, "B1".toList, 3, 12, 34,
          resolveClaimTime [] 1 "B1".toList 3 12 34 ⟨100, 480⟩ ⟨101, 900⟩ ⟨100, 700⟩,
          ⟨100, 700⟩⟩]
        1 "B1".toList 3 12 34 ⟨100, 480⟩ ⟨101, 900⟩ ⟨106, 0⟩ =
      resolveClaimTime [] 1 "B1".toList 3 12 34 ⟨100, 480⟩ ⟨101, 900⟩ ⟨100, 700⟩ :=
  ⟨rfl,
    (resolveClaimTime_resend_idempotent [] 1 "B1".toList 3 12 34
      ⟨100, 480⟩ ⟨101, 900⟩ ⟨100, 700⟩ ⟨105, 0⟩ ⟨106, 0⟩ ⟨100, 700⟩ rfl).2.1,
    (resolveClaimTime_resend_idempotent [] 1 "B1".toList 3 12 34
      ⟨100, 480⟩ ⟨101, 900⟩ ⟨100, 700⟩ ⟨105, 0⟩ ⟨106, 0⟩ ⟨100, 700⟩ rfl).2.2⟩

/-! ### EntrantBonusValidator: `validateEntrant` address authorization

From `validateEntrant` (the v1.10 source, unnamed/part_002 lines 1281-1365),
specialized to live mode (`cfg.TestMode = false`), which is the mode claim
C6 and §4.3 describe.  The entrant/team database lookup is modelled by an
`Option` holding the rider name and the list of parsed known addresses
(`mail.ParseAddressList` output); `strings.EqualFold` by ASCII lowercase
folding; `strings.FieldsFunc(s, c == '@')` by `fieldsAt`.  The source reads:

  ok := !cfg.MatchEmail
  if !ok {                      // live mode: cfg.TestMode is false
    for _, em := range myE {    // myE = the entrant's parsed addresses
      ok = ok || strings.EqualFold(v.Address, cfg.ImapLogin)
      ok = ok || strings.EqualFold(em, v.Address)
      if !ok {
        a1 := strings.FieldsFunc(em, at); a2 := strings.FieldsFunc(v.Address, at)
        ok = strings.EqualFold(a1[0], a2[0])
      }
      if ok { break }
    }
  }
  return true, ok && !strings.EqualFold(RiderName, "")

Note the monitored-address comparison happens INSIDE the loop over the
entrant's registered addresses, so it is never reached when that list is
empty. -/

/-- The length of `dropWhile` never exceeds the input length. -/
theorem dropWhile_length_le {α : Type} (p : α → Bool) (l : List α) :
    (l.dropWhile p).length ≤ l.length := by
  induction l with
  | nil => simp
  | cons c t ih =>
    rw [List.dropWhile_cons]
    simp only [List.length_cons]
    split
    · omega
    · simp

/-- Model of `strings.FieldsFunc(s, func(c rune) bool { return c == '@' })`:
split at `'@'`, dropping empty fields. -/
def fieldsAt (s : List Char) : List (List Char) :=
  match s with
  | [] => []
  | c :: t =>
    if c = '@' then fieldsAt t
    else (c :: t.takeWhile (fun x => x ≠ '@')) :: fieldsAt (t.dropWhile (fun x => x ≠ '@'))
termination_by s.length
decreasing_by
  all_goals simp only [List.length_cons]
  all_goals first
    | exact Nat.lt_succ_self _
    | exact Nat.lt_succ_of_le (dropWhile_length_le _ _)

/-- The expression `a1[0]` of the source: the first field of `fieldsAt`.  The source would
panic on an empty field list (an address that is empty or all `'@'`); the
model returns `[]` there. -/
def localPartC (s : List Char) : List Char := (fieldsAt s).headD []

/-- The claim's notion of "local part": the portion before the `'@'`. -/
def beforeAt (s : List Char) : List Char := s.takeWhile (fun x => x ≠ '@')

/-- Model of `strings.EqualFold` (ASCII folding). -/
def eqFoldL (a b : List Char) : Bool := a.map Char.toLower == b.map Char.toLower

/-- The body of the address loop for one registered address `em`: the sender
equals the monitored address, or equals `em`, or (fallback) the first
`FieldsFunc` fields agree case-insensitively. -/
def authAddress (imapLogin sender em : List Char) : Bool :=
  eqFoldL sender imapLogin || eqFoldL em sender ||
    eqFoldL (localPartC em) (localPartC sender)

/-- Translation of `validateEntrant` in live mode.  `lookup = none` models an entrant id
with no database row (`rows.Next()` false): `(false, false)`.  Otherwise the
loop with early exit is the `List.any` of `authAddress`, guarded by
`MatchEmail`, and the second component is `ok && RiderName != ""`. -/
def validateEntrantLive (matchEmail : Bool) (imapLogin : List Char)
    (lookup : Option (List Char × List (List Char))) (sender : List Char) :
    Bool × Bool :=
  match lookup with
  | none => (false, false)
  | some (riderName, addrs) =>
    let ok := if matchEmail then addrs.any (fun em => authAddress imapLogin sender em)
              else true
    (true, ok && !(eqFoldL riderName []))

/-- Modelled from the spec: claim C6's authorization condition, word for
word — the From address equals (case-insensitively) one of the entrant's
registered addresses, or shares the same local part (portion before `'@'`)
case-insensitively with one of them, or equals the system's own monitored
address; with matching disabled, any sender. -/
def claimC6Authorized (matchEmail : Bool) (imapLogin : List Char)
    (addrs : List (List Char)) (sender : List Char) : Bool :=
  if matchEmail then
    addrs.any (fun em => eqFoldL em sender || eqFoldL (beforeAt em) (beforeAt sender)) ||
      eqFoldL sender imapLogin
  else true

/-! ### Theorems for claim C6 -/

/-- C6 counterexample: a recognized entrant with an EMPTY registered-address
list, and a message sent from the system's own monitored address, with
address matching enabled.  The claim's condition authorizes the sender (it
equals the monitored address), but the code does not: the monitored-address
comparison sits inside the loop over registered addresses, and the loop body
never runs. -/
theorem monitored_address_needs_registered_address :
    (validateEntrantLive true "ebc@example.com".toList
        (some ("Bob".toList, [])) "ebc@example.com".toList).2 = false ∧
    claimC6Authorized true "ebc@example.com".toList [] "ebc@example.com".toList = true := by
  constructor
  · rfl
  · decide

/-- The function `localPartC` agrees with the claim's "portion before the `'@'`" for any
string not beginning with `'@'` (in particular for every address
`mail.ParseAddress` can produce). -/
theorem localPartC_eq_beforeAt (s : List Char) (h : s.head? ≠ some '@') :
    localPartC s = beforeAt s := by
  cases s with
  | nil => simp [localPartC, beforeAt, fieldsAt]
  | cons c t =>
    have hc : ¬(c = '@') := fun heq => h (by simp [heq])
    unfold localPartC
    rw [fieldsAt]
    rw [if_neg hc]
    simp [beforeAt, List.takeWhile_cons, hc]

/-- The loop over registered addresses, characterized: some address
authorizes the sender iff the sender matches one address exactly or by local
part, or the address list is non-empty and the sender is the monitored
address. -/
theorem any_authAddress_iff (imapLogin sender : List Char) (addrs : List (List Char))
    (hsl : localPartC sender = beforeAt sender)
    (ha : ∀ em ∈ addrs, localPartC em = beforeAt em) :
    (addrs.any (fun em => authAddress imapLogin sender em) = true ↔
      ((addrs ≠ [] ∧ eqFoldL sender imapLogin = true) ∨
        ∃ em ∈ addrs, eqFoldL em sender = true ∨
          eqFoldL (beforeAt em) (beforeAt sender) = true)) := by
  rw [List.any_eq_true]
  constructor
  · rintro ⟨em, hmem, hauth⟩
    unfold authAddress at hauth
    rw [Bool.or_eq_true, Bool.or_eq_true] at hauth
    rcases hauth with (hA | hB) | hC
    · exact Or.inl ⟨List.ne_nil_of_mem hmem, hA⟩
    · exact Or.inr ⟨em, hmem, Or.inl hB⟩
    · rw [ha em hmem, hsl] at hC
      exact Or.inr ⟨em, hmem, Or.inr hC⟩
  · rintro (⟨hne, hA⟩ | ⟨em, hmem, hBC⟩)
    · obtain ⟨em, hmem⟩ := List.exists_mem_of_ne_nil addrs hne
      refine ⟨em, hmem, ?_⟩
      unfold authAddress
      rw [Bool.or_eq_true, Bool.or_eq_true]
      exact Or.inl (Or.inl hA)
    · refine ⟨em, hmem, ?_⟩
      unfold authAddress
      rw [Bool.or_eq_true, Bool.or_eq_true, ha em hmem, hsl]
      rcases hBC with hB | hC
      · exact Or.inl (Or.inr hB)
      · exact Or.inr hC

/-- C6 amended: in live mode, for a recognized entrant (a database row with
a non-empty rider name) whose sender and registered addresses do not begin
with `'@'`: with address matching enabled, the sender is authorized exactly
when the From address equals (case-insensitively) one of the registered
addresses, or shares the local part (portion before `'@'`)
case-insensitively with one of them, or — provided the entrant has at least
one registered address — equals the system's own monitored address (the
monitored-address rule is only evaluated inside the loop over registered
addresses); with address matching disabled, any sender is authorized. -/
theorem validateEntrantLive_authorized_iff (matchEmail : Bool)
    (imapLogin riderName sender : List Char) (addrs : List (List Char))
    (hs : sender.head? ≠ some '@') (ha : ∀ em ∈ addrs, em.head? ≠ some '@') :
    ((validateEntrantLive matchEmail imapLogin (some (riderName, addrs)) sender).2 = true ↔
      (riderName ≠ [] ∧
        (matchEmail = false ∨
          (addrs ≠ [] ∧ eqFoldL sender imapLogin = true) ∨
          ∃ em ∈ addrs, eqFoldL em sender = true ∨
            eqFoldL (beforeAt em) (beforeAt sender) = true))) := by
  have hrn : (!(eqFoldL riderName [])) = true ↔ riderName ≠ [] := by
    simp [eqFoldL]
  cases matchEmail with
  | false =>
    simp only [validateEntrantLive]
    rw [if_neg Bool.false_ne_true, Bool.true_and, hrn]
    constructor
    · intro h
      refine ⟨h, Or.inl ?_⟩
      trivial
    · intro h
      exact h.1
  | true =>
    simp only [validateEntrantLive]
    rw [if_pos trivial, Bool.and_eq_true, hrn,
      any_authAddress_iff imapLogin sender addrs
        (localPartC_eq_beforeAt sender hs)
        (fun em hmem => localPartC_eq_beforeAt em (ha em hmem))]
    constructor
    · rintro ⟨hauth, hname⟩
      exact ⟨hname, Or.inr hauth⟩
    · rintro ⟨hname, h | h⟩
      · exact absurd h (by simp)
      · exact ⟨h, hname⟩

/-- C6 amended witness: the spec's end-to-end scenario 5 — registered
address `rider1@gmail.com`, sender `rider1@work.com`, address matching
enabled: authorized via the local-part fallback. -/
theorem validateEntrantLive_authorized_iff_witness :
    (validateEntrantLive true "ebc@ibauk.uk".toList
        (some ("Rider One".toList, ["rider1@gmail.com".toList]))
        "rider1@work.com".toList).2 = true :=
  (validateEntrantLive_authorized_iff true "ebc@ibauk.uk".toList "Rider One".toList
      "rider1@work.com".toList ["rider1@gmail.com".toList]
      (by decide) (by decide)).mpr
    ⟨by decide,
      Or.inr (Or.inr ⟨"rider1@gmail.com".toList, by decide, Or.inr (by decide)⟩)⟩

end EBCFetch
